import Mathlib

/-!
Verification of the stream_ml core library: frozen (hashable) dictionaries,
the descriptor field built on them, the composite mixture model, and the
truncated-normal likelihood evaluator with partial-observability masking.

Python dictionaries are modelled as insertion-ordered association lists
(`List (K × V)`); lookup returns the first entry with the given key, which
coincides with Python dict lookup whenever keys are distinct.
-/

namespace StreamML

/-- First-match lookup in an association list; models `d[k]` on a Python
dict represented by its insertion-ordered entry list. -/
def lookupKV {K V : Type} [DecidableEq K] (l : List (K × V)) (k : K) : Option V :=
  (l.find? (fun e => decide (e.1 = k))).map Prod.snd

/-- Models `k in d`. -/
def containsKey {K V : Type} [DecidableEq K] (l : List (K × V)) (k : K) : Bool :=
  (lookupKV l k).isSome

/-- The keys of an association list in insertion order; models `d.keys()`. -/
def keysOf {K V : Type} (l : List (K × V)) : List K :=
  l.map Prod.fst

/-- Python `d1 | d2` on plain dicts: the result keeps the keys of `d1` in
their order with values updated from `d2` where present, then appends the
keys of `d2` that are absent from `d1`, in `d2`'s order. -/
def dictUnion {K V : Type} [DecidableEq K] (l1 l2 : List (K × V)) : List (K × V) :=
  l1.map (fun e => (e.1, (lookupKV l2 e.1).getD e.2))
    ++ l2.filter (fun e => !containsKey l1 e.1)

/-- `FrozenDict` from `stream_ml/core/utils/frozendict.py`: an immutable
mapping, represented by its insertion-ordered entries. -/
structure FrozenDict (K V : Type) where
  entries : List (K × V)
deriving DecidableEq

/-- `FrozenDict.__getitem__`. -/
def FrozenDict.lookup {K V : Type} [DecidableEq K] (fd : FrozenDict K V) (k : K) : Option V :=
  lookupKV fd.entries k

/-- `FrozenDict.__contains__`. -/
def FrozenDict.hasKey {K V : Type} [DecidableEq K] (fd : FrozenDict K V) (k : K) : Bool :=
  containsKey fd.entries k

/-- `FrozenDict.__hash__`: starting from `h = 0`, fold `h ^= hash((key, value))`
over the items. `entryHash` abstracts Python's `hash((key, value))`. -/
def FrozenDict.pyHash {K V : Type} (entryHash : K × V → Nat) (fd : FrozenDict K V) : Nat :=
  fd.entries.foldl (fun h e => h ^^^ entryHash e) 0

/-- The success path of `FrozenDict.__or__`: `FrozenDict(self._dict | dict(other))`.
A pure function: neither operand is modified. -/
def FrozenDict.union {K V : Type} [DecidableEq K] (A B : FrozenDict K V) : FrozenDict K V :=
  ⟨dictUnion A.entries B.entries⟩

/-- The error raised by `FrozenDict.__or__` on a non-FrozenDict right operand
(`NotImplementedError` in the source; the spec's `UnsupportedOperation` kind). -/
structure UnsupportedOperation where
deriving DecidableEq

/-- A Python object appearing as the right operand of `|`: either a
`FrozenDict` or anything else (represented by a plain mapping — the code's
`isinstance` check only distinguishes frozen from not-frozen). -/
inductive PyMapping (K V : Type) where
  | frozen (fd : FrozenDict K V)
  | plainDict (l : List (K × V))
deriving DecidableEq

/-- `FrozenDict.__or__`: requires the right operand to be a `FrozenDict`,
otherwise raises; on success returns the dict union re-wrapped frozen. -/
def FrozenDict.orOp {K V : Type} [DecidableEq K] (A : FrozenDict K V) :
    PyMapping K V → Except UnsupportedOperation (FrozenDict K V)
  | .frozen B => .ok (A.union B)
  | .plainDict _ => .error ⟨⟩

/-- `FrozenDictField` from `frozendict.py`: a dataclass descriptor holding an
optional default (`None` models the `MISSING` sentinel) and the owner-assigned
field name (`__set_name__` stores `"_" + name`). -/
structure FrozenDictField (K V : Type) where
  fieldName : String
  default : Option (FrozenDict K V)

/-- `FrozenDictField.__get__` with `obj is None` (class-level access, the path
the dataclass machinery uses to obtain the default): returns the default, or
raises `AttributeError(f"no default value for {self._name}")`. -/
def FrozenDictField.getClass {K V : Type} (f : FrozenDictField K V) :
    Except String (FrozenDict K V) :=
  match f.default with
  | some d => .ok d
  | none => .error ("no default value for _" ++ f.fieldName)

/-- `FrozenDictField.__get__` with `obj` an instance: `getattr(obj, self._name)`,
i.e. returns the stored value, or a generic `AttributeError` when the instance
attribute was never assigned. `stored` is the instance's `_<name>` slot. -/
def FrozenDictField.getInstance {K V : Type} (f : FrozenDictField K V)
    (stored : Option (FrozenDict K V)) : Except String (FrozenDict K V) :=
  match stored with
  | some v => .ok v
  | none => .error ("object has no attribute _" ++ f.fieldName)

/-- `FrozenDictField.__set__`: stores `FrozenDict(default or {}) | FrozenDict(value)`
as the instance's permanent value. -/
def FrozenDictField.set {K V : Type} [DecidableEq K] (f : FrozenDictField K V)
    (value : FrozenDict K V) : FrozenDict K V :=
  (f.default.getD ⟨[]⟩).union value

/-- The dataclass construction step when the caller supplies no explicit value:
the dataclass machinery reads the class attribute (descriptor `__get__` with
`obj=None`) to obtain the default and assigns it through `__set__`; with no
default this surfaces the `AttributeError` instead. Returns the instance's
stored value after `__init__`. -/
def FrozenDictField.initNoArg {K V : Type} [DecidableEq K] (f : FrozenDictField K V) :
    Except String (FrozenDict K V) :=
  f.getClass.map f.set

/-- A descriptor field declared with a default mapping of one entry. -/
def fieldWithDefault : FrozenDictField String Nat :=
  ⟨"field", some ⟨[("a", 1)]⟩⟩

/-- A descriptor field declared with no default. -/
def fieldNoDefault : FrozenDictField String Nat :=
  ⟨"field", none⟩


/-! Numeric model layer. Arrays are embedded over the reals: model
parameters as `coordinate name → parameter name → ℝ`, data tables as
`column name → row index → ℝ`, boolean masks as
`coordinate name → row index → Bool`. -/

/-- Model parameters: `mpars[coord][param]`. -/
abbrev Pars : Type := String → String → ℝ

/-- A column-addressable data table: `data[column].array[row]`. -/
abbrev DataT : Type := String → Nat → ℝ

/-- A boolean `where` mask, row-aligned with the data, one column per
coordinate. -/
abbrev MaskT : Type := String → Nat → Bool

noncomputable section

/-- `xp.logaddexp`: `log (exp a + exp b)`. -/
def logaddexp (a b : ℝ) : ℝ :=
  Real.log (Real.exp a + Real.exp b)

/-- The error-combination step of `TruncatedNormal.ln_likelihood`:
`ln_s = xp.logaddexp(2 * ln_s, 2 * xp.log(sigma_o)) / 2`. For an error
column `sigma_o ≥ 0` the backend computes `exp(2 * log sigma_o) = sigma_o ^ 2`
(including `sigma_o = 0`, where IEEE arithmetic gives `log 0 = -∞` and
`exp(-∞) = 0 = 0 ^ 2` — the source comments "it's fine if sigma_o is 0"),
so the combined log-sigma is embedded as `log (exp (2 ln_s) + sigma_o ^ 2) / 2`. -/
def combinedLnSigma (ln_s sigma_o : ℝ) : ℝ :=
  Real.log (Real.exp (2 * ln_s) + sigma_o ^ 2) / 2

/-- `WhereRequiredError` from `stream_ml/core/builtin/_utils.py`. -/
structure WhereRequiredError where

/-- `TruncatedNormal` static configuration (`_truncnorm.py`): the declared
coordinates, their truncation bounds, the optional per-coordinate error
column names (parallel to `coord_names`), and the `require_where` flag. -/
structure TruncatedNormal where
  coord_names : List String
  coord_bounds : String → ℝ × ℝ
  coord_err_names : Option (List String)
  require_where : Bool

/-- The value `logpdf(x[idx], loc=mu, ln_sigma=ln_s, a=a, b=b)` computes for
one observed entry: coordinate number `j` named `c`, row `i`. The pointwise
truncated-normal `logpdf` lives in `stream_ml.core.builtin._stats.trunc_norm`,
a module outside the sources at hand, so it is kept abstract as the argument
`logpdf x mu ln_sigma a b`. -/
def TruncatedNormal.coordTermRaw (m : TruncatedNormal)
    (logpdf : ℝ → ℝ → ℝ → ℝ → ℝ → ℝ) (mpars : Pars) (data : DataT)
    (i j : Nat) (c : String) : ℝ :=
  let mu := mpars c "mu"
  let ln_s0 := mpars c "ln-sigma"
  let ln_s :=
    match m.coord_err_names with
    | some cens => combinedLnSigma ln_s0 (data (cens.getD j "") i)
    | none => ln_s0
  logpdf (data c i) mu ln_s (m.coord_bounds c).1 (m.coord_bounds c).2

/-- The per-row log-likelihood once the mask `w` is fixed: a zero-initialized
`(N, ndim)` array receives the computed `logpdf` values only at the masked
positions (`array_at(lnliks, idx).set(value)`), so an unobserved entry stays
exactly `0`; the row value is the sum over the coordinate axis. -/
def TruncatedNormal.lnlikWith (m : TruncatedNormal)
    (logpdf : ℝ → ℝ → ℝ → ℝ → ℝ → ℝ) (mpars : Pars) (data : DataT)
    (w : MaskT) : Nat → ℝ :=
  fun i =>
    (m.coord_names.enum.map
      (fun jc =>
        if w jc.2 i then m.coordTermRaw logpdf mpars data i jc.1 jc.2 else 0)).sum

/-- `TruncatedNormal.ln_likelihood`: if `where` is given it is used as the
mask; otherwise the call fails with `WhereRequiredError` when the model
declares `require_where`, and defaults to an all-true `(N, ndim)` mask when
it does not. -/
def TruncatedNormal.ln_likelihood (m : TruncatedNormal)
    (logpdf : ℝ → ℝ → ℝ → ℝ → ℝ → ℝ) (mpars : Pars) (data : DataT)
    (whereMask : Option MaskT) : Except WhereRequiredError (Nat → ℝ) :=
  match whereMask with
  | some w => .ok (m.lnlikWith logpdf mpars data w)
  | none =>
    if m.require_where then .error ⟨⟩
    else .ok (m.lnlikWith logpdf mpars data (fun _ _ => true))

/-- A sub-model as `CompositeModel` consumes it (`stream_ml/core.py`): a
per-row log-likelihood and a scalar log-prior. -/
structure Model where
  ln_likelihood : Pars → DataT → Nat → ℝ
  ln_prior : Pars → ℝ

/-- `CompositeModel`: an insertion-ordered named collection of sub-models. -/
structure CompositeModel where
  models : List (String × Model)

/-- `CompositeModel.keys()`: the sub-model names in insertion order. -/
def CompositeModel.keys (cm : CompositeModel) : List String :=
  cm.models.map Prod.fst

/-- `CompositeModel.ln_likelihood`: stacks `exp(model.ln_likelihood(...))`
over the sub-models, sums over the model axis, and takes `log` — per row. -/
def CompositeModel.ln_likelihood (cm : CompositeModel) (pars : Pars)
    (data : DataT) : Nat → ℝ :=
  fun i =>
    Real.log ((cm.models.map (fun nm => Real.exp (nm.2.ln_likelihood pars data i))).sum)

/-- `CompositeModel.ln_prior`: stacks the sub-models' `ln_prior(pars)` and
sums. -/
def CompositeModel.ln_prior (cm : CompositeModel) (pars : Pars) : ℝ :=
  (cm.models.map (fun nm => nm.2.ln_prior pars)).sum

/-- `CompositeModel.__hash__`: `hash(tuple(self.keys()))`. `tupleHash`
abstracts Python's hash on tuples of strings; the hash reads nothing but the
key sequence. -/
def CompositeModel.pyHash (tupleHash : List String → Int) (cm : CompositeModel) : Int :=
  tupleHash cm.keys

/-- A sub-model whose log-likelihood and log-prior are identically zero. -/
def zeroModel : Model :=
  ⟨fun _ _ _ => 0, fun _ => 0⟩

/-- A sub-model whose log-likelihood and log-prior are identically one. -/
def oneModel : Model :=
  ⟨fun _ _ _ => 1, fun _ => 1⟩

/-- All-zero model parameters. -/
def parsZero : Pars :=
  fun _ _ => 0

/-- All-zero data table. -/
def dataZero : DataT :=
  fun _ _ => 0

/-- A concrete truncated-normal configuration: coordinates `x, y`, unit
truncation bounds, no error columns, `require_where = False`. -/
def tnExample : TruncatedNormal :=
  ⟨["x", "y"], fun _ => (0, 1), none, false⟩

/-- A trivial pointwise logpdf used to instantiate quantified statements. -/
def lpZero : ℝ → ℝ → ℝ → ℝ → ℝ → ℝ :=
  fun _ _ _ _ _ => 0

end

section AssocLemmas

variable {K V : Type} [DecidableEq K]

theorem lookupKV_nil (k : K) : lookupKV ([] : List (K × V)) k = none := rfl

theorem lookupKV_cons (e : K × V) (l : List (K × V)) (k : K) :
    lookupKV (e :: l) k = if e.1 = k then some e.2 else lookupKV l k := by
  by_cases h : e.1 = k <;> simp [lookupKV, List.find?, h]

theorem lookupKV_eq_some_iff_mem {l : List (K × V)} (hnd : (keysOf l).Nodup)
    {k : K} {v : V} : lookupKV l k = some v ↔ (k, v) ∈ l := by
  induction l with
  | nil => simp [lookupKV_nil]
  | cons e t ih =>
    obtain ⟨ek, ev⟩ := e
    have hnd' : (∀ x : V, (ek, x) ∉ t) ∧ (List.map Prod.fst t).Nodup := by
      simpa [keysOf] using hnd
    have ht : (keysOf t).Nodup := by simpa [keysOf] using hnd'.2
    rw [lookupKV_cons]
    by_cases h : ek = k
    · subst h
      rw [if_pos rfl]
      constructor
      · intro hv
        injection hv with hv
        subst hv
        exact List.mem_cons_self _ _
      · intro hm
        rcases List.mem_cons.mp hm with h1 | h2
        · injection h1 with _ h1b
          rw [h1b]
        · exact absurd h2 (hnd'.1 v)
    · rw [if_neg h, ih ht]
      constructor
      · intro hm
        exact List.mem_cons_of_mem _ hm
      · intro hm
        rcases List.mem_cons.mp hm with h1 | h2
        · exact absurd (congrArg Prod.fst h1).symm h
        · exact h2

theorem lookupKV_eq_none_iff {l : List (K × V)} {k : K} :
    lookupKV l k = none ↔ k ∉ keysOf l := by
  induction l with
  | nil => simp [lookupKV_nil, keysOf]
  | cons e t ih =>
    obtain ⟨ek, ev⟩ := e
    rw [lookupKV_cons]
    by_cases h : ek = k
    · subst h
      simp [keysOf]
    · rw [if_neg h, ih]
      simp only [keysOf, List.map_cons, List.mem_cons]
      constructor
      · intro hn hm
        rcases hm with h1 | h2
        · exact h h1.symm
        · exact hn (by simpa [keysOf] using h2)
      · intro hn hm
        exact hn (Or.inr (by simpa [keysOf] using hm))

theorem containsKey_iff_mem_keys {l : List (K × V)} {k : K} :
    containsKey l k = true ↔ k ∈ keysOf l := by
  rw [containsKey, Option.isSome_iff_ne_none, ne_eq, lookupKV_eq_none_iff, not_not]

theorem lookupKV_eq_of_perm {l1 l2 : List (K × V)} (p : l1.Perm l2)
    (hnd : (keysOf l1).Nodup) (k : K) : lookupKV l1 k = lookupKV l2 k := by
  have hnd2 : (keysOf l2).Nodup := ((p.map Prod.fst).nodup_iff).mp hnd
  cases h : lookupKV l2 k with
  | some v =>
    exact (lookupKV_eq_some_iff_mem hnd).mpr
      (p.mem_iff.mpr ((lookupKV_eq_some_iff_mem hnd2).mp h))
  | none =>
    exact lookupKV_eq_none_iff.mpr
      (fun hm => (lookupKV_eq_none_iff.mp h) ((p.map Prod.fst).mem_iff.mp hm))

theorem perm_of_lookupKV_eq {l1 l2 : List (K × V)}
    (h1 : (keysOf l1).Nodup) (h2 : (keysOf l2).Nodup)
    (h : ∀ k, lookupKV l1 k = lookupKV l2 k) : l1.Perm l2 := by
  have d1 : l1.Nodup := List.Nodup.of_map Prod.fst h1
  have d2 : l2.Nodup := List.Nodup.of_map Prod.fst h2
  rw [← Multiset.coe_eq_coe]
  rw [Multiset.Nodup.ext (by exact d1) (by exact d2)]
  rintro ⟨k, v⟩
  rw [Multiset.mem_coe, Multiset.mem_coe,
    ← lookupKV_eq_some_iff_mem h1, ← lookupKV_eq_some_iff_mem h2, h k]

theorem foldl_xor_perm {α : Type} (f : α → Nat) {l1 l2 : List α} (p : l1.Perm l2) :
    ∀ init : Nat, l1.foldl (fun h e => h ^^^ f e) init
      = l2.foldl (fun h e => h ^^^ f e) init := by
  induction p with
  | nil => intro init; rfl
  | cons x _ ih => intro init; simp only [List.foldl_cons]; exact ih _
  | swap x y l =>
    intro init
    simp only [List.foldl_cons]
    rw [Nat.xor_assoc, Nat.xor_assoc, Nat.xor_comm (f y) (f x)]
  | trans _ _ ih1 ih2 => intro init; exact (ih1 init).trans (ih2 init)

theorem lookupKV_append (l1 l2 : List (K × V)) (k : K) :
    lookupKV (l1 ++ l2) k
      = match lookupKV l1 k with
        | some v => some v
        | none => lookupKV l2 k := by
  induction l1 with
  | nil => simp [lookupKV_nil]
  | cons e t ih =>
    rw [List.cons_append, lookupKV_cons, lookupKV_cons]
    by_cases h : e.1 = k <;> simp [h, ih]

theorem lookupKV_map_getD (l1 l2 : List (K × V)) (k : K) :
    lookupKV (l1.map (fun e => (e.1, (lookupKV l2 e.1).getD e.2))) k
      = (lookupKV l1 k).map (fun v => (lookupKV l2 k).getD v) := by
  induction l1 with
  | nil => simp [lookupKV_nil]
  | cons e t ih =>
    obtain ⟨ek, ev⟩ := e
    rw [List.map_cons, lookupKV_cons, lookupKV_cons]
    by_cases h : ek = k
    · subst h; simp
    · simp [h, ih]

theorem lookupKV_filter (l : List (K × V)) (p : K × V → Bool) (k : K)
    (hp : ∀ v, p (k, v) = true) : lookupKV (l.filter p) k = lookupKV l k := by
  induction l with
  | nil => simp
  | cons e t ih =>
    obtain ⟨ek, ev⟩ := e
    by_cases h : ek = k
    · subst h
      rw [List.filter_cons_of_pos (hp ev), lookupKV_cons, lookupKV_cons]
      simp
    · cases hpe : p (ek, ev) with
      | true =>
        rw [List.filter_cons_of_pos hpe, lookupKV_cons, lookupKV_cons, if_neg h,
          if_neg h, ih]
      | false =>
        rw [List.filter_cons_of_neg (by simp [hpe]), lookupKV_cons, if_neg h, ih]

theorem lookupKV_dictUnion (l1 l2 : List (K × V)) (k : K) :
    lookupKV (dictUnion l1 l2) k
      = match lookupKV l2 k with
        | some v => some v
        | none => lookupKV l1 k := by
  rw [dictUnion, lookupKV_append, lookupKV_map_getD]
  cases h1 : lookupKV l1 k with
  | some v =>
    cases h2 : lookupKV l2 k with
    | some v2 => simp [h2]
    | none => simp [h2]
  | none =>
    have hfk : ∀ v : V, (fun e : K × V => !containsKey l1 e.1) (k, v) = true := by
      intro v
      simp [containsKey, h1]
    rw [lookupKV_filter l2 _ k hfk]
    cases h2 : lookupKV l2 k <;> simp

end AssocLemmas

theorem sum_map_ite_filter {α : Type} (l : List α) (p : α → Bool) (f : α → ℝ) :
    (l.map (fun x => if p x then f x else 0)).sum = ((l.filter p).map f).sum := by
  induction l with
  | nil => rfl
  | cons a t ih =>
    cases hpa : p a <;> simp [List.filter_cons, hpa, ih]

/-- C3: constructing a `FrozenDict` from any permutation of the same
key-distinct entries yields equal content (lookup) and equal hash, and, for
any per-entry hash function, two `FrozenDict`s with equal content always
have equal hash — the XOR combination is order-independent. -/
theorem frozendict_hash_content_invariant {K V : Type} [DecidableEq K]
    (entryHash : K × V → Nat) (l1 l2 : List (K × V)) :
    (l1.Perm l2 → (keysOf l1).Nodup →
      (∀ k, FrozenDict.lookup (⟨l1⟩ : FrozenDict K V) k = FrozenDict.lookup ⟨l2⟩ k)
        ∧ FrozenDict.pyHash entryHash ⟨l1⟩ = FrozenDict.pyHash entryHash ⟨l2⟩)
    ∧ ((keysOf l1).Nodup → (keysOf l2).Nodup →
      (∀ k, FrozenDict.lookup (⟨l1⟩ : FrozenDict K V) k = FrozenDict.lookup ⟨l2⟩ k) →
      FrozenDict.pyHash entryHash ⟨l1⟩ = FrozenDict.pyHash entryHash ⟨l2⟩) := by
  constructor
  · intro p hnd
    exact ⟨fun k => lookupKV_eq_of_perm p hnd k, foldl_xor_perm entryHash p 0⟩
  · intro h1 h2 h
    exact foldl_xor_perm entryHash (perm_of_lookupKV_eq h1 h2 h) 0

/-- Witness for C3: the two-entry dictionaries built in either insertion
order agree on every lookup and have equal XOR hash. -/
theorem frozendict_hash_content_invariant_witness :
    ([((1 : ℕ), (10 : ℕ)), (2, 20)].Perm [(2, 20), (1, 10)]
      ∧ (keysOf [((1 : ℕ), (10 : ℕ)), (2, 20)]).Nodup)
    ∧ FrozenDict.pyHash (fun e => e.1 * 100 + e.2) (⟨[(1, 10), (2, 20)]⟩ : FrozenDict ℕ ℕ)
        = FrozenDict.pyHash (fun e => e.1 * 100 + e.2) ⟨[(2, 20), (1, 10)]⟩ :=
  ⟨⟨by decide, by decide⟩,
    ((frozendict_hash_content_invariant (fun e => e.1 * 100 + e.2)
      [(1, 10), (2, 20)] [(2, 20), (1, 10)]).1 (by decide) (by decide)).2⟩

/-- C6: the union `A | B` has key set exactly `keys A ∪ keys B`, and on every
key present in both operands the right operand wins; the operation is pure,
so neither operand is modified. -/
theorem frozendict_union_right_bias {K V : Type} [DecidableEq K]
    (A B : FrozenDict K V) (k : K) :
    ((A.union B).hasKey k = (A.hasKey k || B.hasKey k))
    ∧ (A.hasKey k = true → B.hasKey k = true → (A.union B).lookup k = B.lookup k) := by
  constructor
  · simp only [FrozenDict.hasKey, containsKey, FrozenDict.union, FrozenDict.lookup]
    rw [lookupKV_dictUnion]
    cases hB : lookupKV B.entries k with
    | some v => simp
    | none => simp
  · intro hA hB
    simp only [FrozenDict.lookup, FrozenDict.union]
    rw [lookupKV_dictUnion]
    simp only [FrozenDict.hasKey, containsKey] at hB
    cases hB2 : lookupKV B.entries k with
    | some v => simp
    | none => rw [hB2] at hB; simp at hB

/-- Witness for C6: key `2` lies in both operands and the union returns the
right operand's value for it. -/
theorem frozendict_union_right_bias_witness :
    ((⟨[(1, 10), (2, 20)]⟩ : FrozenDict ℕ ℕ).hasKey 2 = true
      ∧ (⟨[(2, 99), (3, 30)]⟩ : FrozenDict ℕ ℕ).hasKey 2 = true)
    ∧ ((⟨[(1, 10), (2, 20)]⟩ : FrozenDict ℕ ℕ).union ⟨[(2, 99), (3, 30)]⟩).lookup 2
        = (⟨[(2, 99), (3, 30)]⟩ : FrozenDict ℕ ℕ).lookup 2 :=
  ⟨⟨by decide, by decide⟩,
    (frozendict_union_right_bias ⟨[(1, 10), (2, 20)]⟩ ⟨[(2, 99), (3, 30)]⟩ 2).2
      (by decide) (by decide)⟩

/-- C9: the `|` operator fails with the `UnsupportedOperation` kind exactly
when the right operand is not a `FrozenDict`; the failure produces no
mapping, and on a frozen right operand it returns the union. -/
theorem frozendict_or_requires_frozen {K V : Type} [DecidableEq K] :
    (∀ (A : FrozenDict K V) (l : List (K × V)),
        A.orOp (.plainDict l) = .error ⟨⟩)
    ∧ (∀ (A B : FrozenDict K V), A.orOp (.frozen B) = .ok (A.union B)) :=
  ⟨fun _ _ => rfl, fun _ _ => rfl⟩

/-- C8: on a field declared with default `[("a", 1)]`, dataclass construction
without an explicit value stores and returns the default; assigning
`[("b", 2)]` stores the merge `[("a", 1), ("b", 2)]`; and with no default a
read before any assignment fails with the `AttributeError`
`no default value for _field`. -/
theorem frozendictfield_default_merge :
    fieldWithDefault.initNoArg = .ok ⟨[("a", 1)]⟩
    ∧ FrozenDictField.getInstance fieldWithDefault (some ⟨[("a", 1)]⟩) = .ok ⟨[("a", 1)]⟩
    ∧ fieldWithDefault.set ⟨[("b", 2)]⟩ = ⟨[("a", 1), ("b", 2)]⟩
    ∧ fieldNoDefault.getClass = .error "no default value for _field"
    ∧ fieldNoDefault.initNoArg = .error "no default value for _field" :=
  ⟨rfl, rfl, rfl, rfl, rfl⟩

/-- C1: the composite log-likelihood exponentiates each sub-model's per-row
log-likelihood, sums the resulting probabilities across sub-models, and takes
one final log; for two sub-models it equals `log (exp L1 + exp L2)` and is
not the sum `L1 + L2` of the log-likelihoods. -/
theorem composite_ln_likelihood_mixture :
    (∀ (cm : CompositeModel) (pars : Pars) (data : DataT) (i : Nat),
        cm.ln_likelihood pars data i
          = Real.log ((cm.models.map
              (fun nm => Real.exp (nm.2.ln_likelihood pars data i))).sum))
    ∧ (∀ (n1 n2 : String) (m1 m2 : Model) (pars : Pars) (data : DataT) (i : Nat),
        (CompositeModel.mk [(n1, m1), (n2, m2)]).ln_likelihood pars data i
          = Real.log (Real.exp (m1.ln_likelihood pars data i)
              + Real.exp (m2.ln_likelihood pars data i)))
    ∧ (CompositeModel.mk [("stream", zeroModel), ("background", zeroModel)]).ln_likelihood
          parsZero dataZero 0
        ≠ zeroModel.ln_likelihood parsZero dataZero 0
          + zeroModel.ln_likelihood parsZero dataZero 0 := by
  refine ⟨fun cm pars data i => rfl, ?_, ?_⟩
  · intro n1 n2 m1 m2 pars data i
    simp [CompositeModel.ln_likelihood]
  · have h : (CompositeModel.mk
        [("stream", zeroModel), ("background", zeroModel)]).ln_likelihood
          parsZero dataZero 0 = Real.log 2 := by
      simp [CompositeModel.ln_likelihood, zeroModel]
      norm_num
    have h0 : zeroModel.ln_likelihood parsZero dataZero 0 = 0 := rfl
    rw [h, h0, add_zero]
    exact ne_of_gt (Real.log_pos one_lt_two)

/-- C7: the composite log-prior is exactly the sum of the sub-models'
log-priors; for two sub-models it equals `p1 + p2`. -/
theorem composite_ln_prior_sums :
    (∀ (cm : CompositeModel) (pars : Pars),
        cm.ln_prior pars = (cm.models.map (fun nm => nm.2.ln_prior pars)).sum)
    ∧ (∀ (n1 n2 : String) (m1 m2 : Model) (pars : Pars),
        (CompositeModel.mk [(n1, m1), (n2, m2)]).ln_prior pars
          = m1.ln_prior pars + m2.ln_prior pars) := by
  refine ⟨fun _ _ => rfl, fun n1 n2 m1 m2 pars => ?_⟩
  simp [CompositeModel.ln_prior]

/-- C10: the composite hash reads nothing but `tuple(self.keys())`: two
composite models with equal ordered name sequences hash equally even when
the sub-models bound to those names differ. -/
theorem composite_hash_only_keys
    (tupleHash : List String → Int) (cm1 cm2 : CompositeModel)
    (h : cm1.keys = cm2.keys) :
    CompositeModel.pyHash tupleHash cm1 = CompositeModel.pyHash tupleHash cm2 := by
  unfold CompositeModel.pyHash
  rw [h]

/-- Witness for C10: same names, different sub-models, equal hash. -/
theorem composite_hash_only_keys_witness :
    (CompositeModel.mk [("stream", zeroModel), ("background", zeroModel)]).keys
      = (CompositeModel.mk [("stream", oneModel), ("background", oneModel)]).keys
    ∧ CompositeModel.pyHash (fun l => (l.length : Int))
        (CompositeModel.mk [("stream", zeroModel), ("background", zeroModel)])
      = CompositeModel.pyHash (fun l => (l.length : Int))
        (CompositeModel.mk [("stream", oneModel), ("background", oneModel)]) :=
  ⟨rfl, composite_hash_only_keys _ _ _ rfl⟩

/-- C2: each masked-out entry contributes exactly `0` to the row sum over
coordinates (the row value equals the sum of logpdf terms over the mask-true
coordinates only), and with an all-false mask `ln_likelihood` returns the
zero function, whatever `mpars`, `data`, and the pointwise logpdf are. -/
theorem truncnorm_masking_neutral :
    (∀ (m : TruncatedNormal) (logpdf : ℝ → ℝ → ℝ → ℝ → ℝ → ℝ)
        (mpars : Pars) (data : DataT) (w : MaskT) (i : Nat),
        m.lnlikWith logpdf mpars data w i
          = ((m.coord_names.enum.filter (fun jc => w jc.2 i)).map
              (fun jc => m.coordTermRaw logpdf mpars data i jc.1 jc.2)).sum)
    ∧ (∀ (m : TruncatedNormal) (logpdf : ℝ → ℝ → ℝ → ℝ → ℝ → ℝ)
        (mpars : Pars) (data : DataT) (w : MaskT),
        (∀ c i, w c i = false) →
        m.ln_likelihood logpdf mpars data (some w) = .ok (fun _ => 0)) := by
  constructor
  · intro m logpdf mpars data w i
    exact sum_map_ite_filter _ _ _
  · intro m logpdf mpars data w hw
    show Except.ok (m.lnlikWith logpdf mpars data w) = Except.ok (fun _ => 0)
    congr 1
    funext i
    apply List.sum_eq_zero
    intro x hx
    rcases List.mem_map.mp hx with ⟨jc, hjc, rfl⟩
    simp [hw jc.2 i]

/-- Witness for C2: the all-false mask on a concrete model yields the zero
per-row log-likelihood. -/
theorem truncnorm_masking_neutral_witness :
    (∀ (c : String) (i : Nat), (fun (_ : String) (_ : Nat) => false) c i = false)
    ∧ tnExample.ln_likelihood lpZero parsZero dataZero (some (fun _ _ => false))
        = .ok (fun _ => 0) :=
  ⟨fun _ _ => rfl,
    truncnorm_masking_neutral.2 tnExample lpZero parsZero dataZero
      (fun _ _ => false) (fun _ _ => rfl)⟩

/-- C5: `ln_likelihood` fails with `WhereRequiredError` exactly when `where`
is omitted and the model declares `require_where`; when omitted and not
required, it evaluates with the all-true mask (every entry observed). -/
theorem truncnorm_where_required :
    (∀ (m : TruncatedNormal) (logpdf : ℝ → ℝ → ℝ → ℝ → ℝ → ℝ)
        (mpars : Pars) (data : DataT) (wm : Option MaskT),
        m.ln_likelihood logpdf mpars data wm = .error ⟨⟩
          ↔ wm = none ∧ m.require_where = true)
    ∧ (∀ (m : TruncatedNormal) (logpdf : ℝ → ℝ → ℝ → ℝ → ℝ → ℝ)
        (mpars : Pars) (data : DataT),
        m.require_where = false →
        m.ln_likelihood logpdf mpars data none
          = .ok (m.lnlikWith logpdf mpars data (fun _ _ => true))) := by
  constructor
  · intro m logpdf mpars data wm
    cases wm with
    | some w => simp [TruncatedNormal.ln_likelihood]
    | none =>
      cases h : m.require_where with
      | true => simp [TruncatedNormal.ln_likelihood, h]
      | false => simp [TruncatedNormal.ln_likelihood, h]
  · intro m logpdf mpars data h
    simp [TruncatedNormal.ln_likelihood, h]

/-- Witness for C5: a model with `require_where = False` and no mask uses the
all-true mask. -/
theorem truncnorm_where_required_witness :
    tnExample.require_where = false
    ∧ tnExample.ln_likelihood lpZero parsZero dataZero none
        = .ok (tnExample.lnlikWith lpZero parsZero dataZero (fun _ _ => true)) :=
  ⟨rfl, truncnorm_where_required.2 tnExample lpZero parsZero dataZero rfl⟩

/-- C4: the combined log-sigma is `logaddexp(2 ln_sigma, 2 log sigma_obs) / 2`
for positive `sigma_obs`, the intrinsic and observational variances add in
linear space, and at `sigma_obs = 0` with `ln_sigma = log 2` the combined
sigma is exactly `2`. -/
theorem truncnorm_quadrature :
    (∀ ln_s sigma_o : ℝ, 0 < sigma_o →
        combinedLnSigma ln_s sigma_o
          = logaddexp (2 * ln_s) (2 * Real.log sigma_o) / 2)
    ∧ (∀ ln_s sigma_o : ℝ,
        Real.exp (combinedLnSigma ln_s sigma_o) ^ 2
          = Real.exp ln_s ^ 2 + sigma_o ^ 2)
    ∧ Real.exp (combinedLnSigma (Real.log 2) 0) = 2 := by
  refine ⟨?_, ?_, ?_⟩
  · intro ln_s sigma_o h
    rw [combinedLnSigma, logaddexp]
    have he : Real.exp (2 * Real.log sigma_o) = sigma_o ^ 2 := by
      rw [two_mul, Real.exp_add, Real.exp_log h, sq]
    rw [he]
  · intro ln_s sigma_o
    have hpos : 0 < Real.exp (2 * ln_s) + sigma_o ^ 2 :=
      add_pos_of_pos_of_nonneg (Real.exp_pos _) (sq_nonneg _)
    rw [combinedLnSigma, sq, ← Real.exp_add, add_halves, Real.exp_log hpos,
      show Real.exp ln_s ^ 2 = Real.exp (2 * ln_s) from by
        rw [sq, ← Real.exp_add, two_mul]]
  · have h4 : Real.exp (2 * Real.log 2) = 4 := by
      rw [two_mul, Real.exp_add, Real.exp_log (by norm_num : (0 : ℝ) < 2)]
      norm_num
    have hc : combinedLnSigma (Real.log 2) 0 = Real.log 2 := by
      rw [combinedLnSigma, h4]
      norm_num
      rw [show (4 : ℝ) = 2 ^ 2 by norm_num, Real.log_pow]
      push_cast
      ring
    rw [hc, Real.exp_log (by norm_num : (0 : ℝ) < 2)]

/-- Witness for C4: at `ln_sigma = 0`, `sigma_obs = 1` the positivity
hypothesis holds and the logaddexp form applies. -/
theorem truncnorm_quadrature_witness :
    (0 : ℝ) < 1
    ∧ combinedLnSigma 0 1 = logaddexp (2 * 0) (2 * Real.log 1) / 2 :=
  ⟨one_pos, truncnorm_quadrature.1 0 1 one_pos⟩

end StreamML
